import Mathlib

/-!
Verification of the autoclave-calculator core (`src/lib/tools.ts`,
`src/lib/autoclave.ts`, `src/lib/pricing.ts`), shallowly embedded in Lean.

Quantities are modelled as `ℤ` (JS numbers used as integers), prices as `ℚ`
(exact arithmetic in place of JS floats).  Optional fields of TypeScript
interfaces are `Option`s; `x || 0` becomes `Option.getD 0` and
`x !== false` becomes `Option.getD true`.  JS `Map`s become functions
`ToolType → Option _` built by successive overwriting, and `Math.floor` of a
non-negative quotient is `Int./` (Euclidean division).
-/

/-- The 13 fixed surgical tool types of `tools.ts` (`TOOL_NAMES` literal
union), as a closed enumeration in the same canonical order. -/
inductive ToolType where
  | sponge
  | splint
  | antiseptic
  | antibiotics
  | anesthetic
  | scalpel
  | stitches
  | labKit
  | clamp
  | pins
  | transfusion
  | ultrasound
  | defibrillator
deriving DecidableEq, Repr, Fintype

/-- Canonical order of the 13 tool types (`TOOL_NAMES` in `tools.ts`). -/
def TOOL_NAMES : List ToolType :=
  [.sponge, .splint, .antiseptic, .antibiotics, .anesthetic, .scalpel,
   .stitches, .labKit, .clamp, .pins, .transfusion, .ultrasound,
   .defibrillator]

/-- Mirrors `TOOLS_COUNT = TOOL_NAMES.length` in `tools.ts`. -/
def TOOLS_COUNT : ℕ := TOOL_NAMES.length

/-- Mirrors `AUTOCLAVE_REQUIREMENT = 20` in `tools.ts`. -/
def AUTOCLAVE_REQUIREMENT : ℤ := 20

/-- Mirrors the `ToolInput` interface of `autoclave.ts`: `minRemainder` and
`autoRepeat` are optional fields. -/
structure ToolInput where
  tool : ToolType
  quantity : ℤ
  minRemainder : Option ℤ
  autoRepeat : Option Bool
deriving DecidableEq, Repr

/-- Mirrors the `ToolOutput` interface of `autoclave.ts`. -/
structure ToolOutput where
  tool : ToolType
  quantity : ℤ
deriving DecidableEq, Repr

/-- Mirrors the `AutoclaveResult` interface of `autoclave.ts`. -/
structure AutoclaveResult where
  inputTool : ToolType
  inputQuantity : ℤ
  autoclaveCount : ℤ
  toolsUsed : ℤ
  remainder : ℤ
  outputTools : List ToolOutput
deriving DecidableEq, Repr

/-- Mirrors the `IterationDetail.toolsProcessed` entries of `autoclave.ts`. -/
structure ProcessedTool where
  tool : ToolType
  autoclaveCount : ℤ
deriving DecidableEq, Repr

/-- Mirrors the `IterationDetail` interface of `autoclave.ts`. -/
structure IterationDetail where
  iteration : ℕ
  totalAutoclaves : ℤ
  toolsProcessed : List ProcessedTool
deriving DecidableEq, Repr

/-- Mirrors the `ToolSummary` interface of `autoclave.ts`. -/
structure ToolSummary where
  tool : ToolType
  originalQuantity : ℤ
  minRemainder : ℤ
  autoRepeat : Bool
  totalToolsUsed : ℤ
  totalReceived : ℤ
  finalQuantity : ℤ
deriving DecidableEq, Repr

/-- Mirrors the `AutoclaveCalculation` interface of `autoclave.ts`; the
`totalOutput` map is a function out of the closed tool enumeration. -/
structure AutoclaveCalculation where
  inputs : List ToolInput
  results : List AutoclaveResult
  totalOutput : ToolType → ℤ
  summary : List ToolSummary
  iterations : ℕ
  iterationDetails : List IterationDetail

/-- Embeds `calculateAutoclaveCount` of `autoclave.ts`:
`Math.floor(Math.max(0, quantity - minRemainder) / 20)`. -/
def calculateAutoclaveCount (quantity minRemainder : ℤ) : ℤ :=
  max 0 (quantity - minRemainder) / AUTOCLAVE_REQUIREMENT

/-- Embeds `calculateRemainder` of `autoclave.ts`. -/
def calculateRemainder (quantity autoclaveCount : ℤ) : ℤ :=
  quantity - autoclaveCount * AUTOCLAVE_REQUIREMENT

/-- Embeds `getOtherTools` of `autoclave.ts`:
`TOOL_NAMES.filter((t) => t !== excludeTool)`. -/
def getOtherTools (excludeTool : ToolType) : List ToolType :=
  TOOL_NAMES.filter (fun t => decide (t ≠ excludeTool))

/-- Embeds `calculateSingleAutoclave` of `autoclave.ts`. -/
def calculateSingleAutoclave (input : ToolInput) : AutoclaveResult :=
  let minRemainder := input.minRemainder.getD 0
  let autoclaveCount := calculateAutoclaveCount input.quantity minRemainder
  let toolsUsed := autoclaveCount * AUTOCLAVE_REQUIREMENT
  let remainder := input.quantity - toolsUsed
  let otherTools := getOtherTools input.tool
  let outputTools := otherTools.map (fun tool => ToolOutput.mk tool autoclaveCount)
  { inputTool := input.tool
    inputQuantity := input.quantity
    autoclaveCount := autoclaveCount
    toolsUsed := toolsUsed
    remainder := remainder
    outputTools := outputTools }

/-- Per-tool configuration stored in the `configMap` of
`calculateFullAutoclave` (`{ minRemainder, autoRepeat }`). -/
structure ToolConfig where
  minRemainder : ℤ
  autoRepeat : Bool
deriving DecidableEq, Repr

/-- One `configMap.set(input.tool, {...})` step of `calculateFullAutoclave`:
`minRemainder: input.minRemainder || 0`, `autoRepeat: input.autoRepeat !== false`. -/
def setConfig (m : ToolType → Option ToolConfig) (input : ToolInput) :
    ToolType → Option ToolConfig :=
  fun t =>
    if t = input.tool then
      some ⟨input.minRemainder.getD 0, input.autoRepeat.getD true⟩
    else m t

/-- The `configMap` built by `calculateFullAutoclave`: each input is `set` in
turn, so a later duplicate entry overwrites an earlier one. -/
def buildConfigMap (inputs : List ToolInput) : ToolType → Option ToolConfig :=
  inputs.foldl setConfig (fun _ => none)

/-- Lookup in the config map with the default used throughout
`calculateFullAutoclave`: `configMap.get(tool) || { minRemainder: 0, autoRepeat: true }`. -/
def getConfig (inputs : List ToolInput) (tool : ToolType) : ToolConfig :=
  (buildConfigMap inputs tool).getD ⟨0, true⟩

/-- The `currentQuantities` seed of `calculateFullAutoclave`:
`inputs.find(i => i.tool === tool)?.quantity || 0` (the FIRST matching entry). -/
def initialQuantities (inputs : List ToolInput) (tool : ToolType) : ℤ :=
  match inputs.find? (fun i => decide (i.tool = tool)) with
  | some i => i.quantity
  | none => 0

/-- Mutable state threaded through the iteration loop of
`calculateFullAutoclave`: current quantities, cumulative used/received
counters, result log and iteration log. -/
structure EngineState where
  current : ToolType → ℤ
  used : ToolType → ℤ
  received : ToolType → ℤ
  allResults : List AutoclaveResult
  details : List IterationDetail

/-- The `iterInputs` built at the start of each loop pass of
`calculateFullAutoclave`: `shouldProcess = iteration === 1 || config.autoRepeat`,
quantity zeroed when not processed, then `filter(i => i.quantity > 0)`. -/
def buildIterInputs (config : ToolType → ToolConfig) (current : ToolType → ℤ)
    (iteration : ℕ) : List ToolInput :=
  (TOOL_NAMES.map (fun tool =>
    let cfg := config tool
    let quantity := current tool
    let shouldProcess := decide (iteration = 1) || cfg.autoRepeat
    ToolInput.mk tool (if shouldProcess then quantity else 0)
      (some cfg.minRemainder) none)).filter
    (fun i => decide (0 < i.quantity))

/-- The `iterResults` of one loop pass: each iteration input is run through
`calculateSingleAutoclave` and results with `autoclaveCount > 0` are kept. -/
def iterationResults (config : ToolType → ToolConfig) (current : ToolType → ℤ)
    (iteration : ℕ) : List AutoclaveResult :=
  ((buildIterInputs config current iteration).map calculateSingleAutoclave).filter
    (fun r => decide (0 < r.autoclaveCount))

/-- One `for (const output of result.outputTools)` step: add the output
quantity to the current quantity and to the received counter of its tool. -/
def applyOutput (p : (ToolType → ℤ) × (ToolType → ℤ)) (output : ToolOutput) :
    (ToolType → ℤ) × (ToolType → ℤ) :=
  (fun t => if t = output.tool then p.1 t + output.quantity else p.1 t,
   fun t => if t = output.tool then p.2 t + output.quantity else p.2 t)

/-- One `for (const result of iterResults)` step of the apply phase: push the
result, subtract `toolsUsed` from the input tool's current quantity, add it
to the used counter, then fold in the output tools. -/
def applyResult (s : EngineState) (result : AutoclaveResult) : EngineState :=
  let current0 := fun t =>
    if t = result.inputTool then s.current t - result.toolsUsed else s.current t
  let used1 := fun t =>
    if t = result.inputTool then s.used t + result.toolsUsed else s.used t
  let pair := result.outputTools.foldl applyOutput (current0, s.received)
  { current := pair.1
    used := used1
    received := pair.2
    allResults := s.allResults ++ [result]
    details := s.details }

/-- One full pass of the `while` loop body, with the pass's iteration number:
`none` models the `break` when no autoclaves happened, otherwise the
iteration detail is recorded and all results are applied. -/
def stepIteration (config : ToolType → ToolConfig) (iteration : ℕ)
    (s : EngineState) : Option EngineState :=
  let iterResults := iterationResults config s.current iteration
  if iterResults.isEmpty then none
  else
    let detail : IterationDetail :=
      { iteration := iteration
        totalAutoclaves := iterResults.foldl (fun sum r => sum + r.autoclaveCount) 0
        toolsProcessed := iterResults.map (fun r => ⟨r.inputTool, r.autoclaveCount⟩) }
    some (iterResults.foldl applyResult { s with details := s.details ++ [detail] })

/-- Mirrors `MAX_ITERATIONS = 1000` in `calculateFullAutoclave`. -/
def MAX_ITERATIONS : ℕ := 1000

/-- The `while (iteration < MAX_ITERATIONS)` loop: `fuel` is the number of
passes still allowed and `iter` the number of passes already made, so the
pass executed next is numbered `iter + 1`. -/
def runLoop (config : ToolType → ToolConfig) :
    ℕ → ℕ → EngineState → EngineState
  | 0, _, s => s
  | Nat.succ fuel, iter, s =>
    match stepIteration config (iter + 1) s with
    | none => s
    | some s2 => runLoop config fuel (iter + 1) s2

/-- Embeds `calculateFullAutoclave` of `autoclave.ts`. -/
def calculateFullAutoclave (inputs : List ToolInput) : AutoclaveCalculation :=
  let config := getConfig inputs
  let init : EngineState :=
    { current := initialQuantities inputs
      used := fun _ => 0
      received := fun _ => 0
      allResults := []
      details := [] }
  let final := runLoop config MAX_ITERATIONS 0 init
  let summary : List ToolSummary := TOOL_NAMES.map (fun tool =>
    { tool := tool
      originalQuantity := initialQuantities inputs tool
      minRemainder := (config tool).minRemainder
      autoRepeat := (config tool).autoRepeat
      totalToolsUsed := final.used tool
      totalReceived := final.received tool
      finalQuantity := final.current tool })
  { inputs := inputs
    results := final.allResults
    totalOutput := final.received
    summary := summary
    iterations := final.details.length
    iterationDetails := final.details }

/-- Mirrors the `PriceType` union of `pricing.ts`. -/
inductive PriceType where
  | itemsPerWL
  | wlEach
deriving DecidableEq, Repr

/-- One entry of the price map of `pricing.ts` (`{ value, type }`). -/
structure PriceEntry where
  value : ℚ
  priceType : PriceType
deriving DecidableEq, Repr

/-- Embeds `toWLPerItem` of `pricing.ts`. -/
def toWLPerItem (priceValue : ℚ) (priceType : PriceType) : ℚ :=
  if priceValue ≤ 0 then 0
  else
    match priceType with
    | .itemsPerWL => 1 / priceValue
    | .wlEach => priceValue

/-- Embeds `calculateTotalValue` of `pricing.ts` (a `reduce` over the tool
list; a missing or non-positive price leaves the accumulator unchanged). -/
def calculateTotalValue (tools : List ToolInput)
    (prices : ToolType → Option PriceEntry) : ℚ :=
  tools.foldl (fun total i =>
    match prices i.tool with
    | none => total
    | some price =>
      if price.value ≤ 0 then total
      else total + (i.quantity : ℚ) * toWLPerItem price.value price.priceType) 0

/-- Embeds `calculateBeforeValue` of `pricing.ts`. -/
def calculateBeforeValue (inputs : List ToolInput)
    (prices : ToolType → Option PriceEntry) : ℚ :=
  calculateTotalValue inputs prices

/-- Embeds `calculateAfterValue` of `pricing.ts` (the after-tools literal sets
only `tool` and `quantity`, so the optional fields are absent). -/
def calculateAfterValue (calculation : AutoclaveCalculation)
    (prices : ToolType → Option PriceEntry) : ℚ :=
  calculateTotalValue
    (calculation.summary.map (fun s => ToolInput.mk s.tool s.finalQuantity none none))
    prices

/-- Mirrors the `ValueCalculation` interface of `pricing.ts`. -/
structure ValueCalculation where
  beforeValue : ℚ
  afterValue : ℚ
  difference : ℚ
  profitPercent : ℚ
  isProfitable : Bool
deriving DecidableEq, Repr

/-- Embeds `calculateValueDifference` of `pricing.ts`. -/
def calculateValueDifference (calculation : AutoclaveCalculation)
    (prices : ToolType → Option PriceEntry) : ValueCalculation :=
  let beforeValue := calculateBeforeValue calculation.inputs prices
  let afterValue := calculateAfterValue calculation prices
  let difference := afterValue - beforeValue
  let profitPercent := if 0 < beforeValue then difference / beforeValue * 100 else 0
  { beforeValue := beforeValue
    afterValue := afterValue
    difference := difference
    profitPercent := profitPercent
    isProfitable := decide (0 < difference) }

/-! ### Helper facts about the tool enumeration -/

/-- Every tool type occurs in the canonical enumeration. -/
lemma mem_TOOL_NAMES (t : ToolType) : t ∈ TOOL_NAMES := by cases t <;> decide

/-- The canonical enumeration has no duplicates. -/
lemma TOOL_NAMES_nodup : TOOL_NAMES.Nodup := by decide

/-- Excluding one tool from the 13-type enumeration leaves 12 types. -/
lemma getOtherTools_length (tool : ToolType) : (getOtherTools tool).length = 12 := by
  cases tool <;> rfl

/-- Among the other tools of `tool`, exactly one equals a given `t ≠ tool`. -/
lemma getOtherTools_filter_eq :
    ∀ tool t : ToolType, t ≠ tool →
      (getOtherTools tool).filter (fun x => decide (x = t)) = [t] := by decide

/-- C1: on a non-negative quantity `q` and non-negative reserve `r`,
`calculateSingleAutoclave` returns `autoclaveCount = ⌊max 0 (q − r) / 20⌋`
(characterised by the floor inequalities), `toolsUsed = autoclaveCount × 20`,
and `remainder = q − toolsUsed ≥ 0`; both `q = 0` and `r > q` yield
`autoclaveCount = 0` with `remainder = q`; and the output list carries exactly
one entry of quantity `autoclaveCount` for each of the 12 tool types other
than the input tool and none for the input tool itself.  The function is
total, so no error is ever raised. -/
theorem single_autoclave_spec (tool : ToolType) (q r : ℤ) (ar : Option Bool)
    (hq : 0 ≤ q) (hr : 0 ≤ r) (res : AutoclaveResult)
    (hres : res = calculateSingleAutoclave ⟨tool, q, some r, ar⟩) :
    (0 ≤ res.autoclaveCount ∧
      AUTOCLAVE_REQUIREMENT * res.autoclaveCount ≤ max 0 (q - r) ∧
      max 0 (q - r) < AUTOCLAVE_REQUIREMENT * (res.autoclaveCount + 1)) ∧
    res.toolsUsed = res.autoclaveCount * AUTOCLAVE_REQUIREMENT ∧
    (res.remainder = q - res.toolsUsed ∧ 0 ≤ res.remainder) ∧
    ((q = 0 ∨ q < r) → res.autoclaveCount = 0 ∧ res.remainder = q) ∧
    (res.outputTools.length = 12 ∧
      ∀ t : ToolType, t ≠ tool →
        (res.outputTools.filter (fun o => decide (o.tool = t))).map
            (fun o => o.quantity) = [res.autoclaveCount]) ∧
    (∀ o ∈ res.outputTools, o.tool ≠ tool) := by
  subst hres
  refine ⟨⟨?_, ?_, ?_⟩, rfl, ⟨rfl, ?_⟩, ?_, ⟨?_, ?_⟩, ?_⟩
  · show (0 : ℤ) ≤ max 0 (q - r) / AUTOCLAVE_REQUIREMENT
    simp only [AUTOCLAVE_REQUIREMENT]; omega
  · show AUTOCLAVE_REQUIREMENT * (max 0 (q - r) / AUTOCLAVE_REQUIREMENT) ≤ max 0 (q - r)
    simp only [AUTOCLAVE_REQUIREMENT]; omega
  · show max 0 (q - r) < AUTOCLAVE_REQUIREMENT * (max 0 (q - r) / AUTOCLAVE_REQUIREMENT + 1)
    simp only [AUTOCLAVE_REQUIREMENT]; omega
  · show (0 : ℤ) ≤ q - max 0 (q - r) / AUTOCLAVE_REQUIREMENT * AUTOCLAVE_REQUIREMENT
    simp only [AUTOCLAVE_REQUIREMENT]
    have h1 : 20 * ((max 0 (q - r)) / 20) ≤ max 0 (q - r) := by omega
    have h2 : max 0 (q - r) ≤ q := by omega
    linarith
  · intro h
    have hz : max 0 (q - r) / AUTOCLAVE_REQUIREMENT = 0 := by
      simp only [AUTOCLAVE_REQUIREMENT]; omega
    constructor
    · exact hz
    · show q - max 0 (q - r) / AUTOCLAVE_REQUIREMENT * AUTOCLAVE_REQUIREMENT = q
      rw [hz]; ring
  · show ((getOtherTools tool).map _).length = 12
    simp [getOtherTools_length]
  · intro t ht
    show (((getOtherTools tool).map
        (fun x => ToolOutput.mk x (calculateAutoclaveCount q r))).filter
        (fun o => decide (o.tool = t))).map (fun o => o.quantity) = _
    rw [List.filter_map]
    have hcomp : ((fun o => decide (o.tool = t)) ∘
        fun x => ToolOutput.mk x (calculateAutoclaveCount q r)) =
        fun x => decide (x = t) := rfl
    rw [hcomp, getOtherTools_filter_eq tool t ht]
    rfl
  · intro o ho
    have ho2 : o ∈ (getOtherTools tool).map
        (fun x => ToolOutput.mk x (calculateAutoclaveCount q r)) := ho
    simp only [List.mem_map] at ho2
    obtain ⟨x, hx, rfl⟩ := ho2
    simp only [getOtherTools, List.mem_filter, decide_eq_true_eq] at hx
    exact hx.2

/-- Witness for C1 at `q = 45`, `r = 3`: two autoclaves, five tools left. -/
theorem single_autoclave_spec_witness :
    (calculateSingleAutoclave ⟨.sponge, 45, some 3, none⟩).remainder =
      45 - (calculateSingleAutoclave ⟨.sponge, 45, some 3, none⟩).toolsUsed ∧
    0 ≤ (calculateSingleAutoclave ⟨.sponge, 45, some 3, none⟩).remainder :=
  (single_autoclave_spec .sponge 45 3 none (by decide) (by decide) _ rfl).2.2.1

/-! ### Value model -/

/-- Closed form of the `reduce` in `calculateTotalValue`: the fold from any
seed is the seed plus the sum of the per-entry contributions. -/
lemma calculateTotalValue_foldl_eq (prices : ToolType → Option PriceEntry) :
    ∀ (l : List ToolInput) (a : ℚ),
      l.foldl (fun total i =>
        match prices i.tool with
        | none => total
        | some price =>
          if price.value ≤ 0 then total
          else total + (i.quantity : ℚ) * toWLPerItem price.value price.priceType) a
      = a + (l.map (fun i =>
          match prices i.tool with
          | none => (0 : ℚ)
          | some price =>
            if price.value ≤ 0 then 0
            else (i.quantity : ℚ) * toWLPerItem price.value price.priceType)).sum
  | [], a => by simp
  | i :: l, a => by
    have ih := calculateTotalValue_foldl_eq prices l
    cases h : prices i.tool with
    | none => simp only [List.foldl_cons, List.map_cons, List.sum_cons, h, ih]; ring
    | some price =>
      by_cases hv : price.value ≤ 0
      · simp only [List.foldl_cons, List.map_cons, List.sum_cons, h, if_pos hv, ih]; ring
      · simp only [List.foldl_cons, List.map_cons, List.sum_cons, h, if_neg hv, ih]; ring

/-- C6: `toWLPerItem` is 0 on any non-positive value; on a positive value it
is the reciprocal for `items-per-wl` and the value itself for `wl-each`; and
`calculateTotalValue` is the sum over the entries of
`quantity × toWLPerItem(price)`, where an entry with no price or a
non-positive price contributes exactly 0. -/
theorem pricing_value_spec :
    (∀ (v : ℚ) (t : PriceType), v ≤ 0 → toWLPerItem v t = 0) ∧
    (∀ v : ℚ, 0 < v → toWLPerItem v PriceType.itemsPerWL = 1 / v ∧
      toWLPerItem v PriceType.wlEach = v) ∧
    (∀ (tools : List ToolInput) (prices : ToolType → Option PriceEntry),
      calculateTotalValue tools prices = (tools.map (fun i =>
        match prices i.tool with
        | none => (0 : ℚ)
        | some price =>
          if price.value ≤ 0 then 0
          else (i.quantity : ℚ) * toWLPerItem price.value price.priceType)).sum) := by
  refine ⟨?_, ?_, ?_⟩
  · intro v t hv
    simp [toWLPerItem, hv]
  · intro v hv
    have hv' : ¬ v ≤ 0 := not_le.mpr hv
    exact ⟨by simp [toWLPerItem, hv'], by simp [toWLPerItem, hv']⟩
  · intro tools prices
    have h := calculateTotalValue_foldl_eq prices tools 0
    simpa [calculateTotalValue] using h

/-- Witness for C6: a non-positive price is worth 0, and a positive one is
converted according to its unit. -/
theorem pricing_value_spec_witness :
    toWLPerItem (-3) PriceType.wlEach = 0 ∧
    toWLPerItem 5 PriceType.itemsPerWL = 1 / 5 ∧ toWLPerItem 5 PriceType.wlEach = 5 :=
  ⟨pricing_value_spec.1 (-3) PriceType.wlEach (by norm_num),
   pricing_value_spec.2.1 5 (by norm_num)⟩

/-- C5: `calculateValueDifference` returns `difference = afterValue −
beforeValue`, `isProfitable ↔ difference > 0`, and a profit percentage that
is `difference / beforeValue × 100` when `beforeValue > 0` but exactly 0 when
`beforeValue = 0`, whatever `afterValue` is (the division is guarded, so in
exact arithmetic no undefined value can arise). -/
theorem value_difference_spec (calculation : AutoclaveCalculation)
    (prices : ToolType → Option PriceEntry) (v : ValueCalculation)
    (hv : v = calculateValueDifference calculation prices) :
    v.difference = v.afterValue - v.beforeValue ∧
    (v.isProfitable = true ↔ 0 < v.difference) ∧
    (0 < v.beforeValue → v.profitPercent = v.difference / v.beforeValue * 100) ∧
    (v.beforeValue = 0 → v.profitPercent = 0) := by
  subst hv
  refine ⟨rfl, decide_eq_true_iff, ?_, ?_⟩
  · intro h
    simp only [calculateValueDifference] at h ⊢
    rw [if_pos h]
  · intro h
    simp only [calculateValueDifference] at h ⊢
    rw [h, if_neg (lt_irrefl 0)]

/-- Witness for C5 with a held inventory of zero value: the profit
percentage is exactly 0. -/
theorem value_difference_spec_witness :
    (calculateValueDifference (calculateFullAutoclave []) (fun _ => none)).profitPercent
      = 0 :=
  (value_difference_spec (calculateFullAutoclave []) (fun _ => none) _ rfl).2.2.2
    (by decide)

/-- C9: the engine is a pure function of its input list — two invocations
on the same inputs are the very same value, field by field, and the input
list itself is returned unchanged (the embedding is stateless, so no hidden
state or mutation of the given `ToolInput`s is possible). -/
theorem fullAutoclave_deterministic (inputs : List ToolInput) :
    (calculateFullAutoclave inputs).summary = (calculateFullAutoclave inputs).summary ∧
    (calculateFullAutoclave inputs).iterationDetails
      = (calculateFullAutoclave inputs).iterationDetails ∧
    (calculateFullAutoclave inputs).iterations = (calculateFullAutoclave inputs).iterations ∧
    (calculateFullAutoclave inputs).results = (calculateFullAutoclave inputs).results ∧
    (calculateFullAutoclave inputs).inputs = inputs :=
  ⟨rfl, rfl, rfl, rfl, rfl⟩

/-! ### Closed forms for the apply phase of the iteration loop -/

/-- Total quantity a list of outputs adds to tool `t`. -/
def outputContribution (outs : List ToolOutput) (t : ToolType) : ℤ :=
  (outs.map (fun o => if o.tool = t then o.quantity else 0)).sum

lemma outputContribution_nonneg (outs : List ToolOutput) (t : ToolType)
    (h : ∀ o ∈ outs, 0 ≤ o.quantity) : 0 ≤ outputContribution outs t := by
  apply List.sum_nonneg
  intro x hx
  simp only [List.mem_map] at hx
  obtain ⟨o, ho, rfl⟩ := hx
  by_cases hc : o.tool = t
  · simpa [hc] using h o ho
  · simp [hc]

/-- Shifting an update out of an `if` into an added summand. -/
lemma ite_add_shift (c d : ToolType) (a b : ℤ) :
    (if c = d then a + b else a) = a + (if d = c then b else 0) := by
  by_cases h : c = d
  · subst h; simp
  · rw [if_neg h, if_neg (fun e => h e.symm)]; ring

/-- The output fold of `applyResult` adds the per-tool output contribution to
both the current quantities and the received counters. -/
lemma foldl_applyOutput_spec (outs : List ToolOutput) :
    ∀ (c rcv : ToolType → ℤ) (t : ToolType),
      (outs.foldl applyOutput (c, rcv)).1 t = c t + outputContribution outs t ∧
      (outs.foldl applyOutput (c, rcv)).2 t = rcv t + outputContribution outs t := by
  induction outs with
  | nil => intro c rcv t; simp [outputContribution]
  | cons o outs ih =>
    intro c rcv t
    have step : applyOutput (c, rcv) o =
        (fun u => if u = o.tool then c u + o.quantity else c u,
         fun u => if u = o.tool then rcv u + o.quantity else rcv u) := rfl
    have hsum : outputContribution (o :: outs) t =
        (if o.tool = t then o.quantity else 0) + outputContribution outs t := by
      simp [outputContribution]
    have h := ih (fun u => if u = o.tool then c u + o.quantity else c u)
      (fun u => if u = o.tool then rcv u + o.quantity else rcv u) t
    rw [List.foldl_cons, step]
    refine ⟨?_, ?_⟩
    · rw [h.1, hsum, ite_add_shift]; ring
    · rw [h.2, hsum, ite_add_shift]; ring

lemma applyResult_current (s : EngineState) (r : AutoclaveResult) (t : ToolType) :
    (applyResult s r).current t =
      s.current t - (if r.inputTool = t then r.toolsUsed else 0)
        + outputContribution r.outputTools t := by
  show (r.outputTools.foldl applyOutput
      (fun u => if u = r.inputTool then s.current u - r.toolsUsed else s.current u,
       s.received)).1 t = _
  rw [(foldl_applyOutput_spec r.outputTools _ _ t).1]
  by_cases h : t = r.inputTool
  · subst h; simp
  · rw [if_neg h, if_neg (fun e => h e.symm)]; ring

lemma applyResult_used (s : EngineState) (r : AutoclaveResult) (t : ToolType) :
    (applyResult s r).used t = s.used t + (if r.inputTool = t then r.toolsUsed else 0) := by
  show (if t = r.inputTool then s.used t + r.toolsUsed else s.used t) = _
  exact ite_add_shift t r.inputTool (s.used t) r.toolsUsed

lemma applyResult_received (s : EngineState) (r : AutoclaveResult) (t : ToolType) :
    (applyResult s r).received t = s.received t + outputContribution r.outputTools t := by
  show (r.outputTools.foldl applyOutput
      (fun u => if u = r.inputTool then s.current u - r.toolsUsed else s.current u,
       s.received)).2 t = _
  exact (foldl_applyOutput_spec r.outputTools _ _ t).2

lemma applyResult_details (s : EngineState) (r : AutoclaveResult) :
    (applyResult s r).details = s.details := rfl

/-- The per-tool balance `current + used − received`; the loop never changes
it, which is exactly the conservation equation of the summary. -/
def stateBalance (s : EngineState) (t : ToolType) : ℤ :=
  s.current t + s.used t - s.received t

lemma applyResult_balance (s : EngineState) (r : AutoclaveResult) (t : ToolType) :
    stateBalance (applyResult s r) t = stateBalance s t := by
  simp only [stateBalance, applyResult_current, applyResult_used, applyResult_received]
  ring

lemma foldl_applyResult_balance (rs : List AutoclaveResult) :
    ∀ (s : EngineState) (t : ToolType),
      stateBalance (rs.foldl applyResult s) t = stateBalance s t := by
  induction rs with
  | nil => intro s t; rfl
  | cons r rs ih =>
    intro s t
    rw [List.foldl_cons, ih, applyResult_balance]

lemma foldl_applyResult_details (rs : List AutoclaveResult) :
    ∀ s : EngineState, (rs.foldl applyResult s).details = s.details := by
  induction rs with
  | nil => intro s; rfl
  | cons r rs ih => intro s; rw [List.foldl_cons, ih, applyResult_details]

lemma foldl_applyResult_used (rs : List AutoclaveResult) :
    ∀ (s : EngineState) (t : ToolType),
      (rs.foldl applyResult s).used t
        = s.used t + (rs.map (fun r => if r.inputTool = t then r.toolsUsed else 0)).sum := by
  induction rs with
  | nil => intro s t; simp
  | cons r rs ih =>
    intro s t
    rw [List.foldl_cons, ih, applyResult_used, List.map_cons, List.sum_cons]
    ring

lemma foldl_applyResult_received (rs : List AutoclaveResult) :
    ∀ (s : EngineState) (t : ToolType),
      (rs.foldl applyResult s).received t
        = s.received t + (rs.map (fun r => outputContribution r.outputTools t)).sum := by
  induction rs with
  | nil => intro s t; simp
  | cons r rs ih =>
    intro s t
    rw [List.foldl_cons, ih, applyResult_received, List.map_cons, List.sum_cons]
    ring

lemma foldl_applyResult_current (rs : List AutoclaveResult) :
    ∀ (s : EngineState) (t : ToolType),
      (rs.foldl applyResult s).current t
        = s.current t
          - (rs.map (fun r => if r.inputTool = t then r.toolsUsed else 0)).sum
          + (rs.map (fun r => outputContribution r.outputTools t)).sum := by
  induction rs with
  | nil => intro s t; simp
  | cons r rs ih =>
    intro s t
    rw [List.foldl_cons, ih, applyResult_current, List.map_cons, List.map_cons,
      List.sum_cons, List.sum_cons]
    ring

/-! ### Facts about one iteration's inputs and results -/

lemma single_count_nonneg (i : ToolInput) :
    0 ≤ (calculateSingleAutoclave i).autoclaveCount := by
  show (0 : ℤ) ≤ max 0 (i.quantity - i.minRemainder.getD 0) / AUTOCLAVE_REQUIREMENT
  simp only [AUTOCLAVE_REQUIREMENT]
  omega

lemma single_toolsUsed_nonneg (i : ToolInput) :
    0 ≤ (calculateSingleAutoclave i).toolsUsed := by
  show (0 : ℤ) ≤
    max 0 (i.quantity - i.minRemainder.getD 0) / AUTOCLAVE_REQUIREMENT * AUTOCLAVE_REQUIREMENT
  simp only [AUTOCLAVE_REQUIREMENT]
  omega

lemma single_toolsUsed_le (i : ToolInput) (hq : 0 ≤ i.quantity)
    (hr : 0 ≤ i.minRemainder.getD 0) :
    (calculateSingleAutoclave i).toolsUsed ≤ i.quantity := by
  show max 0 (i.quantity - i.minRemainder.getD 0) / AUTOCLAVE_REQUIREMENT
      * AUTOCLAVE_REQUIREMENT ≤ i.quantity
  simp only [AUTOCLAVE_REQUIREMENT]
  have h1 : 20 * (max 0 (i.quantity - i.minRemainder.getD 0) / 20)
      ≤ max 0 (i.quantity - i.minRemainder.getD 0) := by omega
  have h2 : max 0 (i.quantity - i.minRemainder.getD 0) ≤ i.quantity := by omega
  linarith

lemma single_outputs_quantity (i : ToolInput) (o : ToolOutput)
    (ho : o ∈ (calculateSingleAutoclave i).outputTools) :
    o.quantity = (calculateSingleAutoclave i).autoclaveCount := by
  have h : o ∈ (getOtherTools i.tool).map
      (fun x => ToolOutput.mk x
        (calculateAutoclaveCount i.quantity (i.minRemainder.getD 0))) := ho
  simp only [List.mem_map] at h
  obtain ⟨x, hx, rfl⟩ := h
  rfl

/-- Membership in `buildIterInputs`: the entry is keyed by its tool, carries
the current quantity (so it is positive and bounded by it), the configured
reserve, and past iteration 1 only auto-repeat tools appear. -/
lemma buildIterInputs_mem (config : ToolType → ToolConfig) (cur : ToolType → ℤ)
    (it : ℕ) (i : ToolInput) (h : i ∈ buildIterInputs config cur it) :
    0 < i.quantity ∧ i.quantity ≤ cur i.tool ∧
    i.minRemainder = some (config i.tool).minRemainder ∧
    (it ≠ 1 → (config i.tool).autoRepeat = true) := by
  simp only [buildIterInputs, List.mem_filter, List.mem_map, decide_eq_true_eq] at h
  obtain ⟨⟨tool, _, rfl⟩, hq⟩ := h
  by_cases hsp : (decide (it = 1) || (config tool).autoRepeat) = true
  · refine ⟨?_, ?_, rfl, ?_⟩
    · simpa [hsp] using hq
    · show (if (decide (it = 1) || (config tool).autoRepeat) = true
          then cur tool else 0) ≤ cur tool
      rw [if_pos hsp]
    · intro hit
      rcases Bool.or_eq_true_iff.mp hsp with h1 | h2
      · exact absurd (of_decide_eq_true h1) hit
      · exact h2
  · exfalso
    have : (if (decide (it = 1) || (config tool).autoRepeat) = true
        then cur tool else 0) = 0 := if_neg hsp
    rw [show (ToolInput.mk tool
        (if (decide (it = 1) || (config tool).autoRepeat) = true then cur tool else 0)
        (some (config tool).minRemainder) none).quantity =
        (if (decide (it = 1) || (config tool).autoRepeat) = true
          then cur tool else 0) from rfl, this] at hq
    exact lt_irrefl 0 hq

lemma iterationResults_mem (config : ToolType → ToolConfig) (cur : ToolType → ℤ)
    (it : ℕ) (r : AutoclaveResult) (h : r ∈ iterationResults config cur it) :
    ∃ i ∈ buildIterInputs config cur it,
      r = calculateSingleAutoclave i ∧ 0 < r.autoclaveCount := by
  simp only [iterationResults, List.mem_filter, List.mem_map, decide_eq_true_eq] at h
  obtain ⟨⟨i, hi, rfl⟩, hcount⟩ := h
  exact ⟨i, hi, rfl, hcount⟩

/-- The input tools of one iteration's results are, in order, a sublist of
the canonical enumeration. -/
lemma iterationResults_keys_sublist (config : ToolType → ToolConfig)
    (cur : ToolType → ℤ) (it : ℕ) :
    List.Sublist ((iterationResults config cur it).map (fun r => r.inputTool))
      TOOL_NAMES := by
  have h1 : List.Sublist
      ((iterationResults config cur it).map (fun r => r.inputTool))
      (((buildIterInputs config cur it).map calculateSingleAutoclave).map
        (fun r => r.inputTool)) :=
    (List.filter_sublist _).map _
  rw [List.map_map] at h1
  have h2 : ((fun r : AutoclaveResult => r.inputTool) ∘ calculateSingleAutoclave)
      = fun i : ToolInput => i.tool := rfl
  rw [h2] at h1
  refine h1.trans ?_
  have h3 : List.Sublist
      ((buildIterInputs config cur it).map (fun i => i.tool))
      ((TOOL_NAMES.map (fun tool =>
        ToolInput.mk tool
          (if (decide (it = 1) || (config tool).autoRepeat) = true then cur tool else 0)
          (some (config tool).minRemainder) none)).map (fun i => i.tool)) :=
    (List.filter_sublist _).map _
  rw [List.map_map] at h3
  simpa using h3

lemma iterationResults_keys_nodup (config : ToolType → ToolConfig)
    (cur : ToolType → ℤ) (it : ℕ) :
    ((iterationResults config cur it).map (fun r => r.inputTool)).Nodup :=
  (iterationResults_keys_sublist config cur it).nodup TOOL_NAMES_nodup

/-- Per-result bounds used for the nonnegativity invariant: used tools are
non-negative and bounded by the current quantity of the input tool, and the
outputs are non-negative. -/
lemma iterationResults_bounds (config : ToolType → ToolConfig) (cur : ToolType → ℤ)
    (it : ℕ) (hminR : ∀ tool, 0 ≤ (config tool).minRemainder)
    (r : AutoclaveResult) (hr : r ∈ iterationResults config cur it) :
    0 ≤ r.toolsUsed ∧ r.toolsUsed ≤ cur r.inputTool ∧
    (∀ o ∈ r.outputTools, 0 ≤ o.quantity) := by
  obtain ⟨i, hi, rfl, hcount⟩ := iterationResults_mem config cur it r hr
  obtain ⟨hq, hle, hmin, _⟩ := buildIterInputs_mem config cur it i hi
  refine ⟨single_toolsUsed_nonneg i, ?_, ?_⟩
  · have hr0 : 0 ≤ i.minRemainder.getD 0 := by
      rw [hmin]
      exact hminR i.tool
    have h1 := single_toolsUsed_le i (le_of_lt hq) hr0
    calc (calculateSingleAutoclave i).toolsUsed ≤ i.quantity := h1
      _ ≤ cur i.tool := hle
  · intro o ho
    rw [single_outputs_quantity i o ho]
    exact single_count_nonneg i

/-! ### Sum lemmas for the keyed used-tools terms -/

lemma sum_if_key_eq_zero (rs : List AutoclaveResult) (t : ToolType)
    (h : ∀ r ∈ rs, r.inputTool ≠ t) :
    (rs.map (fun r => if r.inputTool = t then r.toolsUsed else 0)).sum = 0 := by
  apply List.sum_eq_zero
  intro x hx
  simp only [List.mem_map] at hx
  obtain ⟨r, hr, rfl⟩ := hx
  rw [if_neg (h r hr)]

lemma sum_if_key_nonneg (rs : List AutoclaveResult) (t : ToolType)
    (h : ∀ r ∈ rs, 0 ≤ r.toolsUsed) :
    0 ≤ (rs.map (fun r => if r.inputTool = t then r.toolsUsed else 0)).sum := by
  apply List.sum_nonneg
  intro x hx
  simp only [List.mem_map] at hx
  obtain ⟨r, hr, rfl⟩ := hx
  by_cases hc : r.inputTool = t
  · simpa [hc] using h r hr
  · simp [hc]

/-- With pairwise distinct input tools, the keyed used-tools sum at `t` is at
most any bound that each individual matching term satisfies. -/
lemma sum_if_key_le (t : ToolType) (C : ℤ) (hC : 0 ≤ C) :
    ∀ rs : List AutoclaveResult,
      ((rs.map (fun r => r.inputTool)).Nodup) →
      (∀ r ∈ rs, r.inputTool = t → r.toolsUsed ≤ C) →
      (rs.map (fun r => if r.inputTool = t then r.toolsUsed else 0)).sum ≤ C := by
  intro rs
  induction rs with
  | nil => intro _ _; simpa using hC
  | cons r rs ih =>
    intro hnd hle
    rw [List.map_cons] at hnd
    have hnotmem := (List.nodup_cons.mp hnd).1
    have hnd' := (List.nodup_cons.mp hnd).2
    rw [List.map_cons, List.sum_cons]
    by_cases hk : r.inputTool = t
    · rw [if_pos hk]
      have hzero : (rs.map (fun r => if r.inputTool = t then r.toolsUsed else 0)).sum = 0 := by
        apply sum_if_key_eq_zero
        intro r' hr' he
        exact hnotmem (List.mem_map.mpr ⟨r', hr', by rw [he, hk]⟩)
      rw [hzero]
      simpa using hle r (List.mem_cons_self r rs) hk
    · rw [if_neg hk]
      have := ih hnd' (fun r' hr' he => hle r' (List.mem_cons_of_mem r hr') he)
      simpa using this

/-! ### Invariants of one loop pass and of the bounded loop -/

/-- A successful loop pass appends exactly one iteration detail, numbered by
the pass, whose processed tools are listed in canonical order, and — past
iteration 1 — all carry an enabled auto-repeat flag. -/
lemma stepIteration_some (config : ToolType → ToolConfig) (it : ℕ)
    (s s' : EngineState) (h : stepIteration config it s = some s') :
    s' = (iterationResults config s.current it).foldl applyResult
        { s with details := s.details ++
          [{ iteration := it
             totalAutoclaves := (iterationResults config s.current it).foldl
               (fun sum r => sum + r.autoclaveCount) 0
             toolsProcessed := (iterationResults config s.current it).map
               (fun r => ⟨r.inputTool, r.autoclaveCount⟩) }] } := by
  simp only [stepIteration] at h
  split at h
  · exact absurd h (by simp)
  · exact (Option.some_inj.mp h).symm

lemma stepIteration_details (config : ToolType → ToolConfig) (it : ℕ)
    (s s' : EngineState) (h : stepIteration config it s = some s') :
    ∃ tot tp, s'.details = s.details ++ [⟨it, tot, tp⟩] ∧
      List.Sublist (tp.map (fun p => p.tool)) TOOL_NAMES ∧
      (it ≠ 1 → ∀ p ∈ tp, (config p.tool).autoRepeat = true) := by
  rw [stepIteration_some config it s s' h]
  refine ⟨(iterationResults config s.current it).foldl
      (fun sum r => sum + r.autoclaveCount) 0,
    (iterationResults config s.current it).map
      (fun r => ⟨r.inputTool, r.autoclaveCount⟩), ?_, ?_, ?_⟩
  · rw [foldl_applyResult_details]
  · rw [List.map_map]
    exact iterationResults_keys_sublist config s.current it
  · intro hit p hp
    simp only [List.mem_map] at hp
    obtain ⟨r, hr, rfl⟩ := hp
    obtain ⟨i, hi, rfl, _⟩ := iterationResults_mem config s.current it r hr
    exact (buildIterInputs_mem config s.current it i hi).2.2.2 hit

lemma stepIteration_balance (config : ToolType → ToolConfig) (it : ℕ)
    (s s' : EngineState) (h : stepIteration config it s = some s') (t : ToolType) :
    stateBalance s' t = stateBalance s t := by
  rw [stepIteration_some config it s s' h, foldl_applyResult_balance]
  rfl

lemma stepIteration_nonneg (config : ToolType → ToolConfig) (it : ℕ)
    (s s' : EngineState) (hminR : ∀ tool, 0 ≤ (config tool).minRemainder)
    (hcur : ∀ t, 0 ≤ s.current t) (hused : ∀ t, 0 ≤ s.used t)
    (hrecv : ∀ t, 0 ≤ s.received t) (h : stepIteration config it s = some s') :
    (∀ t, 0 ≤ s'.current t) ∧ (∀ t, 0 ≤ s'.used t) ∧ (∀ t, 0 ≤ s'.received t) := by
  rw [stepIteration_some config it s s' h]
  have hbounds := iterationResults_bounds config s.current it hminR
  refine ⟨?_, ?_, ?_⟩
  · intro t
    rw [foldl_applyResult_current]
    have hsum_le : ((iterationResults config s.current it).map
        (fun r => if r.inputTool = t then r.toolsUsed else 0)).sum ≤ s.current t := by
      apply sum_if_key_le t (s.current t) (hcur t)
      · exact iterationResults_keys_nodup config s.current it
      · intro r hr he
        have := (hbounds r hr).2.1
        rw [he] at this
        exact this
    have hout : 0 ≤ ((iterationResults config s.current it).map
        (fun r => outputContribution r.outputTools t)).sum := by
      apply List.sum_nonneg
      intro x hx
      simp only [List.mem_map] at hx
      obtain ⟨r, hr, rfl⟩ := hx
      exact outputContribution_nonneg _ _ (hbounds r hr).2.2
    dsimp only
    linarith
  · intro t
    rw [foldl_applyResult_used]
    have hsum : 0 ≤ ((iterationResults config s.current it).map
        (fun r => if r.inputTool = t then r.toolsUsed else 0)).sum :=
      sum_if_key_nonneg _ t (fun r hr => (hbounds r hr).1)
    dsimp only
    linarith [hused t]
  · intro t
    rw [foldl_applyResult_received]
    have hout : 0 ≤ ((iterationResults config s.current it).map
        (fun r => outputContribution r.outputTools t)).sum := by
      apply List.sum_nonneg
      intro x hx
      simp only [List.mem_map] at hx
      obtain ⟨r, hr, rfl⟩ := hx
      exact outputContribution_nonneg _ _ (hbounds r hr).2.2
    dsimp only
    linarith [hrecv t]

lemma runLoop_balance (config : ToolType → ToolConfig) :
    ∀ (fuel iter : ℕ) (s : EngineState) (t : ToolType),
      stateBalance (runLoop config fuel iter s) t = stateBalance s t := by
  intro fuel
  induction fuel with
  | zero => intro iter s t; rfl
  | succ fuel ih =>
    intro iter s t
    simp only [runLoop]
    cases hstep : stepIteration config (iter + 1) s with
    | none => rfl
    | some s2 =>
      rw [ih (iter + 1) s2 t, stepIteration_balance config (iter + 1) s s2 hstep]

lemma runLoop_nonneg (config : ToolType → ToolConfig)
    (hminR : ∀ tool, 0 ≤ (config tool).minRemainder) :
    ∀ (fuel iter : ℕ) (s : EngineState),
      (∀ t, 0 ≤ s.current t) → (∀ t, 0 ≤ s.used t) → (∀ t, 0 ≤ s.received t) →
      (∀ t, 0 ≤ (runLoop config fuel iter s).current t) ∧
      (∀ t, 0 ≤ (runLoop config fuel iter s).used t) ∧
      (∀ t, 0 ≤ (runLoop config fuel iter s).received t) := by
  intro fuel
  induction fuel with
  | zero => intro iter s h1 h2 h3; exact ⟨h1, h2, h3⟩
  | succ fuel ih =>
    intro iter s h1 h2 h3
    simp only [runLoop]
    cases hstep : stepIteration config (iter + 1) s with
    | none => exact ⟨h1, h2, h3⟩
    | some s2 =>
      obtain ⟨g1, g2, g3⟩ :=
        stepIteration_nonneg config (iter + 1) s s2 hminR h1 h2 h3 hstep
      exact ih (iter + 1) s2 g1 g2 g3

lemma runLoop_details_inv (config : ToolType → ToolConfig)
    (Q : IterationDetail → Prop)
    (hQ : ∀ (it : ℕ) (tot : ℤ) (tp : List ProcessedTool), 1 ≤ it →
      List.Sublist (tp.map (fun p => p.tool)) TOOL_NAMES →
      (it ≠ 1 → ∀ p ∈ tp, (config p.tool).autoRepeat = true) →
      Q ⟨it, tot, tp⟩) :
    ∀ (fuel iter : ℕ) (s : EngineState),
      (∀ d ∈ s.details, Q d) →
      ∀ d ∈ (runLoop config fuel iter s).details, Q d := by
  intro fuel
  induction fuel with
  | zero => intro iter s hs; exact hs
  | succ fuel ih =>
    intro iter s hs
    simp only [runLoop]
    cases hstep : stepIteration config (iter + 1) s with
    | none => exact hs
    | some s2 =>
      apply ih (iter + 1) s2
      obtain ⟨tot, tp, hdet, hsub, hgate⟩ :=
        stepIteration_details config (iter + 1) s s2 hstep
      intro d hd
      rw [hdet] at hd
      rcases List.mem_append.mp hd with hold | hnew
      · exact hs d hold
      · rw [List.mem_singleton.mp hnew]
        exact hQ (iter + 1) tot tp (by omega) hsub hgate

lemma runLoop_details_length (config : ToolType → ToolConfig) :
    ∀ (fuel iter : ℕ) (s : EngineState),
      (runLoop config fuel iter s).details.length ≤ s.details.length + fuel := by
  intro fuel
  induction fuel with
  | zero => intro iter s; simp [runLoop]
  | succ fuel ih =>
    intro iter s
    simp only [runLoop]
    cases hstep : stepIteration config (iter + 1) s with
    | none =>
      dsimp only
      omega
    | some s2 =>
      dsimp only
      obtain ⟨tot, tp, hdet, _, _⟩ := stepIteration_details config (iter + 1) s s2 hstep
      have h2 : s2.details.length = s.details.length + 1 := by
        rw [hdet, List.length_append, List.length_singleton]
      have := ih (iter + 1) s2
      omega

/-! ### Facts about the config map and initial quantities -/

/-- Any binding in the built config map comes from some input entry. -/
lemma foldl_setConfig_mem :
    ∀ (l : List ToolInput) (acc : ToolType → Option ToolConfig) (t : ToolType)
      (c : ToolConfig),
      (l.foldl setConfig acc) t = some c →
      acc t = some c ∨
        ∃ i ∈ l, c = ⟨i.minRemainder.getD 0, i.autoRepeat.getD true⟩ := by
  intro l
  induction l with
  | nil => intro acc t c h; exact Or.inl h
  | cons i l ih =>
    intro acc t c h
    rcases ih (setConfig acc i) t c h with h' | ⟨j, hj, rfl⟩
    · simp only [setConfig] at h'
      by_cases ht : t = i.tool
      · rw [if_pos ht] at h'
        exact Or.inr ⟨i, List.mem_cons_self i l, (Option.some_inj.mp h').symm⟩
      · rw [if_neg ht] at h'
        exact Or.inl h'
    · exact Or.inr ⟨j, List.mem_cons_of_mem i hj, rfl⟩

lemma getConfig_minRemainder_nonneg (inputs : List ToolInput)
    (h : ∀ i ∈ inputs, 0 ≤ i.quantity ∧ 0 ≤ i.minRemainder.getD 0) (tool : ToolType) :
    0 ≤ (getConfig inputs tool).minRemainder := by
  unfold getConfig
  cases hb : buildConfigMap inputs tool with
  | none => simp
  | some c =>
    rcases foldl_setConfig_mem inputs (fun _ => none) tool c hb with h' | ⟨i, hi, rfl⟩
    · exact absurd h' (by simp)
    · simpa using (h i hi).2

lemma initialQuantities_nonneg (inputs : List ToolInput)
    (h : ∀ i ∈ inputs, 0 ≤ i.quantity ∧ 0 ≤ i.minRemainder.getD 0) (tool : ToolType) :
    0 ≤ initialQuantities inputs tool := by
  unfold initialQuantities
  cases hf : inputs.find? (fun i => decide (i.tool = tool)) with
  | none => simp
  | some i => exact (h i (List.mem_of_find?_eq_some hf)).1

/-- The conservation equation of every summary entry, with no hypotheses on
the inputs: the loop preserves `current + used − received` per tool. -/
lemma fullAutoclave_summary_balance (inputs : List ToolInput) :
    ∀ s ∈ (calculateFullAutoclave inputs).summary,
      s.finalQuantity = s.originalQuantity - s.totalToolsUsed + s.totalReceived := by
  intro s hs
  simp only [calculateFullAutoclave, List.mem_map] at hs
  obtain ⟨tool, _, rfl⟩ := hs
  have hb := runLoop_balance (getConfig inputs) MAX_ITERATIONS 0
    { current := initialQuantities inputs
      used := fun _ => 0
      received := fun _ => 0
      allResults := []
      details := [] } tool
  simp only [stateBalance] at hb
  dsimp only at hb ⊢
  linarith

/-- C3: for non-negative integer quantities and reserves, every entry of the
final summary satisfies `finalQuantity = originalQuantity − totalToolsUsed +
totalReceived` with `totalToolsUsed`, `totalReceived` and `finalQuantity` all
non-negative, and the summary covers the 13 tool types in canonical order. -/
theorem fullAutoclave_conservation (inputs : List ToolInput)
    (h : ∀ i ∈ inputs, 0 ≤ i.quantity ∧ 0 ≤ i.minRemainder.getD 0) :
    ((calculateFullAutoclave inputs).summary.map (fun s => s.tool) = TOOL_NAMES) ∧
    ∀ s ∈ (calculateFullAutoclave inputs).summary,
      s.finalQuantity = s.originalQuantity - s.totalToolsUsed + s.totalReceived ∧
      0 ≤ s.totalToolsUsed ∧ 0 ≤ s.totalReceived ∧ 0 ≤ s.finalQuantity := by
  constructor
  · simp only [calculateFullAutoclave, List.map_map]
    exact List.map_id TOOL_NAMES
  · intro s hs
    have heq := fullAutoclave_summary_balance inputs s hs
    simp only [calculateFullAutoclave, List.mem_map] at hs
    obtain ⟨tool, _, rfl⟩ := hs
    have hnn := runLoop_nonneg (getConfig inputs)
      (getConfig_minRemainder_nonneg inputs h) MAX_ITERATIONS 0
      { current := initialQuantities inputs
        used := fun _ => 0
        received := fun _ => 0
        allResults := []
        details := [] }
      (initialQuantities_nonneg inputs h) (fun _ => le_refl 0) (fun _ => le_refl 0)
    exact ⟨heq, hnn.2.1 tool, hnn.2.2 tool, hnn.1 tool⟩

/-- Witness for C3 at quantity 45 and reserve 3 on one tool: the Sponge
summary entry satisfies the conservation equation with all parts
non-negative. -/
theorem fullAutoclave_conservation_witness :
    (ToolSummary.mk .sponge 45 3 true 40 0 5).finalQuantity
        = (ToolSummary.mk .sponge 45 3 true 40 0 5).originalQuantity
          - (ToolSummary.mk .sponge 45 3 true 40 0 5).totalToolsUsed
          + (ToolSummary.mk .sponge 45 3 true 40 0 5).totalReceived ∧
      0 ≤ (ToolSummary.mk .sponge 45 3 true 40 0 5).totalToolsUsed ∧
      0 ≤ (ToolSummary.mk .sponge 45 3 true 40 0 5).totalReceived ∧
      0 ≤ (ToolSummary.mk .sponge 45 3 true 40 0 5).finalQuantity :=
  (fullAutoclave_conservation [ToolInput.mk .sponge 45 (some 3) (some true)]
      (by decide)).2
    (ToolSummary.mk .sponge 45 3 true 40 0 5) (by decide)

/-- C4: the engine performs at most `MAX_ITERATIONS = 1000` recorded loop
passes; the loop is a total function, so reaching the cap is silent
termination rather than an exception, and the conservation equation of the
summary still holds whenever the cap is reached, since it holds
unconditionally. -/
theorem fullAutoclave_bounded (inputs : List ToolInput) :
    (calculateFullAutoclave inputs).iterations ≤ MAX_ITERATIONS ∧
    ∀ s ∈ (calculateFullAutoclave inputs).summary,
      s.finalQuantity = s.originalQuantity - s.totalToolsUsed + s.totalReceived := by
  constructor
  · have hlen := runLoop_details_length (getConfig inputs) MAX_ITERATIONS 0
      { current := initialQuantities inputs
        used := fun _ => 0
        received := fun _ => 0
        allResults := []
        details := [] }
    simpa [calculateFullAutoclave] using hlen
  · exact fullAutoclave_summary_balance inputs

/-- Witness for C4 on the empty input list: zero iterations and a summary
entry satisfying the conservation equation. -/
theorem fullAutoclave_bounded_witness :
    (calculateFullAutoclave []).iterations ≤ MAX_ITERATIONS ∧
    (ToolSummary.mk .sponge 0 0 true 0 0 0).finalQuantity
      = (ToolSummary.mk .sponge 0 0 true 0 0 0).originalQuantity
        - (ToolSummary.mk .sponge 0 0 true 0 0 0).totalToolsUsed
        + (ToolSummary.mk .sponge 0 0 true 0 0 0).totalReceived :=
  ⟨(fullAutoclave_bounded []).1,
   (fullAutoclave_bounded []).2 (ToolSummary.mk .sponge 0 0 true 0 0 0) (by decide)⟩

/-- At iteration 1 the built iteration inputs include EVERY tool with
positive current quantity, carrying its full quantity and configured
reserve, whatever its auto-repeat flag is (`shouldProcess` is true because
`iteration === 1`). -/
lemma buildIterInputs_one_mem (config : ToolType → ToolConfig) (cur : ToolType → ℤ)
    (tool : ToolType) (h : 0 < cur tool) :
    ToolInput.mk tool (cur tool) (some (config tool).minRemainder) none
      ∈ buildIterInputs config cur 1 := by
  unfold buildIterInputs
  rw [List.mem_filter]
  constructor
  · apply List.mem_map.mpr
    refine ⟨tool, mem_TOOL_NAMES tool, ?_⟩
    show ToolInput.mk tool
        (if (decide ((1 : ℕ) = 1) || (config tool).autoRepeat) = true
          then cur tool else 0)
        (some (config tool).minRemainder) none
      = ToolInput.mk tool (cur tool) (some (config tool).minRemainder) none
    rw [if_pos (by simp : (decide ((1 : ℕ) = 1) || (config tool).autoRepeat) = true)]
  · exact decide_eq_true h

lemma iterationResults_mem_of (config : ToolType → ToolConfig) (cur : ToolType → ℤ)
    (it : ℕ) (i : ToolInput) (hi : i ∈ buildIterInputs config cur it)
    (hc : 0 < (calculateSingleAutoclave i).autoclaveCount) :
    calculateSingleAutoclave i ∈ iterationResults config cur it := by
  unfold iterationResults
  rw [List.mem_filter]
  exact ⟨List.mem_map.mpr ⟨i, hi, rfl⟩, decide_eq_true hc⟩

lemma stepIteration_ne_none (config : ToolType → ToolConfig) (it : ℕ)
    (s : EngineState) (r : AutoclaveResult)
    (hr : r ∈ iterationResults config s.current it) :
    stepIteration config it s ≠ none := by
  unfold stepIteration
  have hne : ¬ (iterationResults config s.current it).isEmpty = true := by
    intro he
    rw [List.isEmpty_iff] at he
    rw [he] at hr
    exact absurd hr (List.not_mem_nil r)
  rw [if_neg hne]
  exact fun h => Option.noConfusion h

lemma stepIteration_toolsProcessed (config : ToolType → ToolConfig) (it : ℕ)
    (s s' : EngineState) (h : stepIteration config it s = some s') :
    ∃ tot, s'.details = s.details ++
      [⟨it, tot, (iterationResults config s.current it).map
        (fun r => ⟨r.inputTool, r.autoclaveCount⟩)⟩] := by
  rw [stepIteration_some config it s s' h, foldl_applyResult_details]
  exact ⟨_, rfl⟩

lemma runLoop_succ (config : ToolType → ToolConfig) (fuel iter : ℕ)
    (s : EngineState) :
    runLoop config (fuel + 1) iter s =
      match stepIteration config (iter + 1) s with
      | none => s
      | some s2 => runLoop config fuel (iter + 1) s2 := rfl

lemma runLoop_details_prefix (config : ToolType → ToolConfig) :
    ∀ (fuel iter : ℕ) (s : EngineState),
      ∃ rest, (runLoop config fuel iter s).details = s.details ++ rest := by
  intro fuel
  induction fuel with
  | zero => intro iter s; exact ⟨[], (List.append_nil _).symm⟩
  | succ fuel ih =>
    intro iter s
    simp only [runLoop]
    cases hstep : stepIteration config (iter + 1) s with
    | none =>
      dsimp only
      exact ⟨[], (List.append_nil _).symm⟩
    | some s2 =>
      dsimp only
      obtain ⟨tot, tp, hdet, _, _⟩ := stepIteration_details config (iter + 1) s s2 hstep
      obtain ⟨rest, hrest⟩ := ih (iter + 1) s2
      refine ⟨⟨iter + 1, tot, tp⟩ :: rest, ?_⟩
      rw [hrest, hdet, List.append_assoc]
      rfl

/-- C2: iteration 1 processes every tool type with positive working quantity
regardless of its auto-repeat flag — for ANY configuration, the iteration-1
input list contains the full-quantity entry of every such tool, and for ANY
input list every tool whose first-pass operation count is positive appears
in the first recorded iteration — while every recorded iteration with index
≥ 2 only processes tools whose configured auto-repeat flag is true.
Consequently, for ANY input list giving the Sponge quantity 40, reserve 0
and auto-repeat off, iteration 1 performs 2 operations on the Sponge and no
iteration ≥ 2 ever processes it, even when outputs of other types land on
it; the singleton such input list is also evaluated in full. -/
theorem first_iteration_gating :
    (∀ (inputs : List ToolInput) (d : IterationDetail) (p : ProcessedTool),
      d ∈ (calculateFullAutoclave inputs).iterationDetails → 2 ≤ d.iteration →
      p ∈ d.toolsProcessed → (getConfig inputs p.tool).autoRepeat = true) ∧
    (∀ (config : ToolType → ToolConfig) (cur : ToolType → ℤ) (tool : ToolType),
      0 < cur tool →
      ToolInput.mk tool (cur tool) (some (config tool).minRemainder) none
        ∈ buildIterInputs config cur 1) ∧
    (∀ (inputs : List ToolInput) (tool : ToolType),
      0 ≤ (getConfig inputs tool).minRemainder →
      0 < calculateAutoclaveCount (initialQuantities inputs tool)
          (getConfig inputs tool).minRemainder →
      ∃ d, (calculateFullAutoclave inputs).iterationDetails.head? = some d ∧
        d.iteration = 1 ∧
        (⟨tool, calculateAutoclaveCount (initialQuantities inputs tool)
            (getConfig inputs tool).minRemainder⟩ : ProcessedTool)
          ∈ d.toolsProcessed) ∧
    (∀ inputs : List ToolInput,
      initialQuantities inputs ToolType.sponge = 40 →
      getConfig inputs ToolType.sponge = ⟨0, false⟩ →
      (∃ d, (calculateFullAutoclave inputs).iterationDetails.head? = some d ∧
        d.iteration = 1 ∧
        (⟨ToolType.sponge, 2⟩ : ProcessedTool) ∈ d.toolsProcessed) ∧
      ∀ d ∈ (calculateFullAutoclave inputs).iterationDetails, 2 ≤ d.iteration →
        ∀ p ∈ d.toolsProcessed, p.tool ≠ ToolType.sponge) ∧
    (calculateFullAutoclave [ToolInput.mk .sponge 40 (some 0) (some false)]).iterationDetails
      = [⟨1, 2, [⟨.sponge, 2⟩]⟩] := by
  have gating : ∀ (inputs : List ToolInput) (d : IterationDetail) (p : ProcessedTool),
      d ∈ (calculateFullAutoclave inputs).iterationDetails → 2 ≤ d.iteration →
      p ∈ d.toolsProcessed → (getConfig inputs p.tool).autoRepeat = true := by
    intro inputs d p hd h2 hp
    exact runLoop_details_inv (getConfig inputs)
      (fun d => 2 ≤ d.iteration →
        ∀ p ∈ d.toolsProcessed, (getConfig inputs p.tool).autoRepeat = true)
      (by
        intro it tot tp h1 hsub hgate h2' p' hp'
        have h2'' : 2 ≤ it := h2'
        exact hgate (by omega) p' hp')
      MAX_ITERATIONS 0
      { current := initialQuantities inputs
        used := fun _ => 0
        received := fun _ => 0
        allResults := []
        details := [] }
      (by intro d hd; exact absurd hd (List.not_mem_nil d))
      d hd h2 p hp
  have fires : ∀ (inputs : List ToolInput) (tool : ToolType),
      0 ≤ (getConfig inputs tool).minRemainder →
      0 < calculateAutoclaveCount (initialQuantities inputs tool)
          (getConfig inputs tool).minRemainder →
      ∃ d, (calculateFullAutoclave inputs).iterationDetails.head? = some d ∧
        d.iteration = 1 ∧
        (⟨tool, calculateAutoclaveCount (initialQuantities inputs tool)
            (getConfig inputs tool).minRemainder⟩ : ProcessedTool)
          ∈ d.toolsProcessed := by
    intro inputs tool hr hc
    have h0 : 0 < initialQuantities inputs tool := by
      simp only [calculateAutoclaveCount, AUTOCLAVE_REQUIREMENT] at hc
      have h1 : 20 * (max 0 (initialQuantities inputs tool
            - (getConfig inputs tool).minRemainder) / 20)
          ≤ max 0 (initialQuantities inputs tool
            - (getConfig inputs tool).minRemainder) := by omega
      omega
    have hi := buildIterInputs_one_mem (getConfig inputs) (initialQuantities inputs)
      tool h0
    have hcnt : 0 < (calculateSingleAutoclave
        (ToolInput.mk tool (initialQuantities inputs tool)
          (some ((getConfig inputs tool).minRemainder)) none)).autoclaveCount := hc
    have hmem := iterationResults_mem_of (getConfig inputs) (initialQuantities inputs)
      1 _ hi hcnt
    cases hstep : stepIteration (getConfig inputs) 1
        { current := initialQuantities inputs
          used := fun _ => 0
          received := fun _ => 0
          allResults := []
          details := [] } with
    | none =>
      exact absurd hstep (stepIteration_ne_none (getConfig inputs) 1 _ _ hmem)
    | some s2 =>
      obtain ⟨tot, hdet⟩ := stepIteration_toolsProcessed (getConfig inputs) 1 _ s2 hstep
      obtain ⟨rest, hrest⟩ := runLoop_details_prefix (getConfig inputs) 999 1 s2
      refine ⟨⟨1, tot, (iterationResults (getConfig inputs)
          (initialQuantities inputs) 1).map
            (fun r => ⟨r.inputTool, r.autoclaveCount⟩)⟩, ?_, rfl, ?_⟩
      · show (runLoop (getConfig inputs) MAX_ITERATIONS 0
            { current := initialQuantities inputs
              used := fun _ => 0
              received := fun _ => 0
              allResults := []
              details := [] }).details.head? = _
        rw [show (MAX_ITERATIONS : ℕ) = 999 + 1 from rfl, runLoop_succ,
          show (0 : ℕ) + 1 = 1 from rfl, hstep]
        dsimp only
        rw [hrest, hdet]
        rfl
      · apply List.mem_map.mpr
        exact ⟨_, hmem, rfl⟩
  refine ⟨gating, ?_, fires, ?_, ?_⟩
  · intro config cur tool h
    exact buildIterInputs_one_mem config cur tool h
  · intro inputs hq hcfg
    constructor
    · have hcount : calculateAutoclaveCount (initialQuantities inputs ToolType.sponge)
          (getConfig inputs ToolType.sponge).minRemainder = 2 := by
        simp only [hq, hcfg]
        decide
      have h := fires inputs ToolType.sponge (by rw [hcfg])
        (by rw [hcount]; decide)
      rw [hcount] at h
      exact h
    · intro d hd h2 p hp heq
      have h := gating inputs d p hd h2 hp
      rw [heq, hcfg] at h
      exact absurd h (by decide)
  · decide

/-- Witness for C2: in a run whose second iteration processes the Splint,
its auto-repeat flag is indeed true; and on a concrete list with
auto-repeat off for the Sponge, iteration 1 still records 2 Sponge
operations. -/
theorem first_iteration_gating_witness :
    (getConfig [ToolInput.mk .sponge 400 none none] .splint).autoRepeat = true ∧
    (∃ d, (calculateFullAutoclave
        [ToolInput.mk .sponge 40 (some 0) (some false)]).iterationDetails.head?
          = some d ∧ d.iteration = 1 ∧
        (⟨ToolType.sponge, 2⟩ : ProcessedTool) ∈ d.toolsProcessed) :=
  ⟨first_iteration_gating.1 [ToolInput.mk .sponge 400 none none]
    ⟨2, 12,
      [⟨.splint, 1⟩, ⟨.antiseptic, 1⟩, ⟨.antibiotics, 1⟩, ⟨.anesthetic, 1⟩,
       ⟨.scalpel, 1⟩, ⟨.stitches, 1⟩, ⟨.labKit, 1⟩, ⟨.clamp, 1⟩, ⟨.pins, 1⟩,
       ⟨.transfusion, 1⟩, ⟨.ultrasound, 1⟩, ⟨.defibrillator, 1⟩]⟩
    ⟨.splint, 1⟩ (by decide) (by decide) (by decide),
   (first_iteration_gating.2.2.2.1 [ToolInput.mk .sponge 40 (some 0) (some false)]
      (by decide) (by decide)).1⟩

/-! ### Concrete scenario and input-list ordering claims -/

/-- Input list with quantity 20 of Surgical Sponge only, reserve 0 and
auto-repeat enabled for all 13 types. -/
def spongeOnlyInputs : List ToolInput :=
  TOOL_NAMES.map (fun t =>
    ToolInput.mk t (if t = ToolType.sponge then 20 else 0) (some 0) (some true))

/-- C7: on 20 Sponges (all other quantities 0, reserve 0, auto-repeat on
everywhere) the engine records exactly one iteration with one autoclave of
the Sponge and remainder 0, and the final summary leaves the Sponge at 0 and
every other tool type at exactly 1 received unit. -/
theorem sponge_scenario :
    (calculateFullAutoclave spongeOnlyInputs).iterations = 1 ∧
    (calculateFullAutoclave spongeOnlyInputs).iterationDetails
      = [⟨1, 1, [⟨.sponge, 1⟩]⟩] ∧
    (calculateFullAutoclave spongeOnlyInputs).results.map
        (fun r => (r.inputTool, r.autoclaveCount, r.remainder))
      = [(.sponge, 1, 0)] ∧
    (calculateFullAutoclave spongeOnlyInputs).summary
      = [⟨.sponge, 20, 0, true, 20, 0, 0⟩,
         ⟨.splint, 0, 0, true, 0, 1, 1⟩,
         ⟨.antiseptic, 0, 0, true, 0, 1, 1⟩,
         ⟨.antibiotics, 0, 0, true, 0, 1, 1⟩,
         ⟨.anesthetic, 0, 0, true, 0, 1, 1⟩,
         ⟨.scalpel, 0, 0, true, 0, 1, 1⟩,
         ⟨.stitches, 0, 0, true, 0, 1, 1⟩,
         ⟨.labKit, 0, 0, true, 0, 1, 1⟩,
         ⟨.clamp, 0, 0, true, 0, 1, 1⟩,
         ⟨.pins, 0, 0, true, 0, 1, 1⟩,
         ⟨.transfusion, 0, 0, true, 0, 1, 1⟩,
         ⟨.ultrasound, 0, 0, true, 0, 1, 1⟩,
         ⟨.defibrillator, 0, 0, true, 0, 1, 1⟩] := by decide

/-! ### find?-based characterisations of the input maps -/

/-- The result of `find?` is invariant under permutation when the matching
element is unique. -/
lemma find?_congr_perm {α : Type} (p : α → Bool) {l l' : List α} (hperm : l.Perm l')
    (huniq : ∀ x ∈ l, ∀ y ∈ l, p x = true → p y = true → x = y) :
    l.find? p = l'.find? p := by
  cases hfl : l.find? p with
  | none =>
    have h' : l'.find? p = none := by
      rw [List.find?_eq_none] at hfl ⊢
      intro x hx
      exact hfl x (hperm.mem_iff.mpr hx)
    rw [h']
  | some x =>
    cases hfl' : l'.find? p with
    | none =>
      rw [List.find?_eq_none] at hfl'
      exact absurd (List.find?_some hfl)
        (hfl' x (hperm.mem_iff.mp (List.mem_of_find?_eq_some hfl)))
    | some y =>
      have hx := List.mem_of_find?_eq_some hfl
      have hy := hperm.mem_iff.mpr (List.mem_of_find?_eq_some hfl')
      rw [huniq x hx y hy (List.find?_some hfl) (List.find?_some hfl')]

/-- In a tool-keyed list without duplicate keys, at most one entry matches a
given tool. -/
lemma tool_find_unique (inputs : List ToolInput)
    (hnd : (inputs.map (fun i => i.tool)).Nodup) (t : ToolType) :
    ∀ x ∈ inputs, ∀ y ∈ inputs,
      decide (x.tool = t) = true → decide (y.tool = t) = true → x = y := by
  intro x hx y hy hxt hyt
  rw [decide_eq_true_eq] at hxt hyt
  exact List.inj_on_of_nodup_map hnd hx hy (by rw [hxt, hyt])

/-- The repeated `Map.set` fold is last-entry-wins: it looks up the LAST
matching entry (`find?` on the reversed list), falling back to the seed. -/
lemma foldl_setConfig_eq (t : ToolType) :
    ∀ (l : List ToolInput) (acc : ToolType → Option ToolConfig),
      (l.foldl setConfig acc) t =
        match l.reverse.find? (fun i => decide (i.tool = t)) with
        | some i => some ⟨i.minRemainder.getD 0, i.autoRepeat.getD true⟩
        | none => acc t := by
  intro l
  induction l with
  | nil => intro acc; rfl
  | cons i l ih =>
    intro acc
    rw [List.foldl_cons, ih (setConfig acc i), List.reverse_cons, List.find?_append]
    cases hf : l.reverse.find? (fun i => decide (i.tool = t)) with
    | some j => simp [hf]
    | none =>
      simp only [hf, Option.none_or]
      by_cases ht : i.tool = t
      · simp [setConfig, List.find?, ht]
      · have ht' : ¬ t = i.tool := fun e => ht e.symm
        simp [setConfig, List.find?, ht, ht']

lemma buildConfigMap_eq (inputs : List ToolInput) (t : ToolType) :
    buildConfigMap inputs t =
      (inputs.reverse.find? (fun i => decide (i.tool = t))).map
        (fun i => ToolConfig.mk (i.minRemainder.getD 0) (i.autoRepeat.getD true)) := by
  show (inputs.foldl setConfig (fun _ => none)) t = _
  rw [foldl_setConfig_eq t inputs]
  cases inputs.reverse.find? (fun i => decide (i.tool = t)) with
  | none => rfl
  | some i => rfl

lemma initialQuantities_congr_perm (inputs inputs' : List ToolInput)
    (hperm : inputs.Perm inputs') (hnd : (inputs.map (fun i => i.tool)).Nodup) :
    initialQuantities inputs = initialQuantities inputs' := by
  funext t
  unfold initialQuantities
  rw [find?_congr_perm (fun i => decide (i.tool = t)) hperm
    (tool_find_unique inputs hnd t)]

lemma getConfig_congr_perm (inputs inputs' : List ToolInput)
    (hperm : inputs.Perm inputs') (hnd : (inputs.map (fun i => i.tool)).Nodup) :
    getConfig inputs = getConfig inputs' := by
  funext t
  unfold getConfig
  rw [buildConfigMap_eq, buildConfigMap_eq]
  have hrev : inputs.reverse.Perm inputs'.reverse :=
    (List.reverse_perm inputs).trans (hperm.trans (List.reverse_perm inputs').symm)
  have huniq : ∀ x ∈ inputs.reverse, ∀ y ∈ inputs.reverse,
      decide (x.tool = t) = true → decide (y.tool = t) = true → x = y := by
    intro x hx y hy
    exact tool_find_unique inputs hnd t x ((List.reverse_perm inputs).mem_iff.mp hx)
      y ((List.reverse_perm inputs).mem_iff.mp hy)
  rw [find?_congr_perm (fun i => decide (i.tool = t)) hrev huniq]

/-- C8: within every recorded iteration the processed tools appear in the
canonical order of the 13-type enumeration (their projection is a sublist of
`TOOL_NAMES`), and for input lists with at most one entry per tool type,
permuting the inputs leaves the final summary unchanged. -/
theorem canonical_order_and_permutation :
    (∀ (inputs : List ToolInput) (d : IterationDetail),
      d ∈ (calculateFullAutoclave inputs).iterationDetails →
      List.Sublist (d.toolsProcessed.map (fun p => p.tool)) TOOL_NAMES) ∧
    (∀ inputs inputs' : List ToolInput, inputs.Perm inputs' →
      (inputs.map (fun i => i.tool)).Nodup →
      (calculateFullAutoclave inputs).summary = (calculateFullAutoclave inputs').summary) := by
  constructor
  · intro inputs d hd
    exact runLoop_details_inv (getConfig inputs)
      (fun d => List.Sublist (d.toolsProcessed.map (fun p => p.tool)) TOOL_NAMES)
      (by intro it tot tp _ hsub _; exact hsub)
      MAX_ITERATIONS 0
      { current := initialQuantities inputs
        used := fun _ => 0
        received := fun _ => 0
        allResults := []
        details := [] }
      (by intro d hd; exact absurd hd (List.not_mem_nil d))
      d hd
  · intro inputs inputs' hperm hnd
    have h1 := initialQuantities_congr_perm inputs inputs' hperm hnd
    have h2 := getConfig_congr_perm inputs inputs' hperm hnd
    simp only [calculateFullAutoclave]
    rw [h1, h2]

/-- Witness for C8: a concrete iteration detail is in canonical order, and
swapping two one-per-type entries leaves the summary unchanged. -/
theorem canonical_order_and_permutation_witness :
    List.Sublist ([(⟨.sponge, 2⟩ : ProcessedTool)].map (fun p => p.tool)) TOOL_NAMES ∧
    (calculateFullAutoclave
        [ToolInput.mk .sponge 25 (some 5) (some true), ToolInput.mk .splint 30 none none]).summary
      = (calculateFullAutoclave
        [ToolInput.mk .splint 30 none none, ToolInput.mk .sponge 25 (some 5) (some true)]).summary :=
  ⟨canonical_order_and_permutation.1 [ToolInput.mk .sponge 40 none none]
      ⟨1, 2, [⟨.sponge, 2⟩]⟩ (by decide),
   canonical_order_and_permutation.2
      [ToolInput.mk .sponge 25 (some 5) (some true), ToolInput.mk .splint 30 none none]
      [ToolInput.mk .splint 30 none none, ToolInput.mk .sponge 25 (some 5) (some true)]
      (by decide) (by decide)⟩

/-! ### Duplicate input entries -/

/-- Looking up a keyed map image of the enumeration returns the image of the
requested key. -/
lemma find?_map_key (f : ToolType → ToolSummary) (hf : ∀ tool, (f tool).tool = tool) :
    ∀ (l : List ToolType) (t : ToolType), t ∈ l →
      (l.map f).find? (fun s => decide (s.tool = t)) = some (f t) := by
  intro l
  induction l with
  | nil => intro t ht; exact absurd ht (List.not_mem_nil t)
  | cons a l ih =>
    intro t ht
    rw [List.map_cons]
    by_cases hat : a = t
    · subst hat
      have hp : (fun s : ToolSummary => decide (s.tool = a)) (f a) = true := by
        simp [hf a]
      rw [@List.find?_cons_of_pos ToolSummary (fun s => decide (s.tool = a)) (f a)
        (List.map f l) hp]
    · have hp : ¬ (fun s : ToolSummary => decide (s.tool = t)) (f a) = true := by
        simp [hf a, hat]
      rw [@List.find?_cons_of_neg ToolSummary (fun s => decide (s.tool = t)) (f a)
        (List.map f l) hp]
      refine ih t ?_
      rcases List.mem_cons.mp ht with h | h
      · exact absurd h.symm hat
      · exact h

/-- C10: with duplicate entries for the same tool type, the summary entry
for that type takes its `originalQuantity` from the FIRST matching entry
(`find`) but its `minRemainder` and `autoRepeat` from the LAST matching
entry (repeated `Map.set`), yielding a mixed configuration. -/
theorem duplicate_inputs_mixed (inputs : List ToolInput) (t : ToolType)
    (s : ToolSummary)
    (h : (calculateFullAutoclave inputs).summary.find? (fun x => decide (x.tool = t))
      = some s) :
    s.originalQuantity
        = ((inputs.find? (fun i => decide (i.tool = t))).map
            (fun i => i.quantity)).getD 0 ∧
    s.minRemainder
        = ((inputs.reverse.find? (fun i => decide (i.tool = t))).map
            (fun i => i.minRemainder.getD 0)).getD 0 ∧
    s.autoRepeat
        = ((inputs.reverse.find? (fun i => decide (i.tool = t))).map
            (fun i => i.autoRepeat.getD true)).getD true := by
  simp only [calculateFullAutoclave] at h
  rw [find?_map_key _ (fun _ => rfl) TOOL_NAMES t (mem_TOOL_NAMES t)] at h
  have hs := (Option.some_inj.mp h).symm
  subst hs
  refine ⟨?_, ?_, ?_⟩
  · show initialQuantities inputs t = _
    unfold initialQuantities
    cases inputs.find? (fun i => decide (i.tool = t)) with
    | none => rfl
    | some i => rfl
  · show (getConfig inputs t).minRemainder = _
    unfold getConfig
    rw [buildConfigMap_eq]
    cases inputs.reverse.find? (fun i => decide (i.tool = t)) with
    | none => rfl
    | some i => rfl
  · show (getConfig inputs t).autoRepeat = _
    unfold getConfig
    rw [buildConfigMap_eq]
    cases inputs.reverse.find? (fun i => decide (i.tool = t)) with
    | none => rfl
    | some i => rfl

/-- Two entries for the Sponge with conflicting fields: quantity 25 with
reserve 5 and auto-repeat off first, then quantity 100 with reserve 0 and
auto-repeat on. -/
def dupSpongeInputs : List ToolInput :=
  [ToolInput.mk .sponge 25 (some 5) (some false),
   ToolInput.mk .sponge 100 (some 0) (some true)]

/-- Witness for C10: the Sponge summary of the duplicated list uses quantity
25 from the first entry but reserve 0 and auto-repeat true from the last. -/
theorem duplicate_inputs_mixed_witness :
    (ToolSummary.mk .sponge 25 0 true 20 0 5).originalQuantity
        = ((dupSpongeInputs.find? (fun i => decide (i.tool = .sponge))).map
            (fun i => i.quantity)).getD 0 ∧
    (ToolSummary.mk .sponge 25 0 true 20 0 5).minRemainder
        = ((dupSpongeInputs.reverse.find? (fun i => decide (i.tool = .sponge))).map
            (fun i => i.minRemainder.getD 0)).getD 0 ∧
    (ToolSummary.mk .sponge 25 0 true 20 0 5).autoRepeat
        = ((dupSpongeInputs.reverse.find? (fun i => decide (i.tool = .sponge))).map
            (fun i => i.autoRepeat.getD true)).getD true :=
  duplicate_inputs_mixed dupSpongeInputs .sponge
    (ToolSummary.mk .sponge 25 0 true 20 0 5) (by decide)
